import Mathlib

/-!
Verification of the QHack challenge scripts.

The repository has two scripts:
* `simple_circuits_30_template.py`: rotates one qubit with `qml.RY(angle)`
  from the state `|0>` and returns the `PauliX` expectation value.
* `vqe_500_template.py`: parses a Hamiltonian from a delimiter-based text
  format (`parse_hamiltonian_input` / `pauli_token_to_operator`) and runs a
  variational eigensolver over it.

The embedding below follows the Python source.  Strings are handled through
their character lists so that every operation is structurally recursive.
Exceptions (IndexError from `tokens[1]` or `qubit_terms[0]`, ValueError from
`float(...)` / `int(...)`) are modelled by `Option`: `none` is an uncaught
exception that terminates the process with a non-zero status.  The diagnostic
`print("Invalid input.")` calls are modelled by an explicit log of printed
strings, returned next to the result.  Numeric coefficients are modelled as
rationals: the judge inputs are plain decimal numerals, which floats
represent exactly at this scale.
-/

/-- Python `str.split(sep)` for a one-character separator: splits at every
occurrence of `sep`, keeping empty pieces, as in `"aSb".split("S")`. -/
def pySplit (sep : Char) : List Char → List (List Char)
  | [] => [[]]
  | c :: rest =>
    match pySplit sep rest with
    | [] => [[]]
    | cur :: parts => if c = sep then [] :: cur :: parts else (c :: cur) :: parts

/-- Python `str.strip()`: removes leading and trailing whitespace. -/
def pyStrip (cs : List Char) : List Char :=
  ((cs.dropWhile Char.isWhitespace).reverse.dropWhile Char.isWhitespace).reverse

/-- Value of a list of decimal digit characters, most significant first,
as accumulated by Python's numeral parsing. -/
def digitsToNat (cs : List Char) : Nat :=
  cs.foldl (fun n c => 10 * n + (c.toNat - 48)) 0

/-- Python `int()` on the characters of a token: an optional sign followed
by one or more decimal digits.  `none` models a `ValueError`. -/
def parsePyInt (cs : List Char) : Option Int :=
  match cs with
  | [] => none
  | c :: rest =>
    if c = '-' then
      if rest ≠ [] ∧ rest.all Char.isDigit then some (-(digitsToNat rest : Int)) else none
    else if c = '+' then
      if rest ≠ [] ∧ rest.all Char.isDigit then some ((digitsToNat rest : Int)) else none
    else
      if (c :: rest).all Char.isDigit then some ((digitsToNat (c :: rest) : Int)) else none

/-- Exact rational value of a decimal numeral with integer-part digits `ip`
and fractional-part digits `fp`. -/
def decimalValue (ip fp : List Char) : ℚ :=
  (digitsToNat ip : ℚ) + (digitsToNat fp : ℚ) / 10 ^ fp.length

/-- Magnitude part of a decimal numeral: digits with an optional single
point, at least one digit overall (`"1"`, `"1."`, `".5"`, `"1.0"`). -/
def parsePyFloatMag (cs : List Char) : Option ℚ :=
  let intPart := cs.takeWhile Char.isDigit
  match cs.dropWhile Char.isDigit with
  | [] => if intPart = [] then none else some (decimalValue intPart [])
  | '.' :: frac =>
    let fracPart := frac.takeWhile Char.isDigit
    if frac.dropWhile Char.isDigit = [] ∧ ¬(intPart = [] ∧ fracPart = []) then
      some (decimalValue intPart fracPart)
    else none
  | _ => none

/-- Signed magnitude of a decimal numeral. -/
def parsePyFloatSigned : List Char → Option ℚ
  | '-' :: rest => (parsePyFloatMag rest).map (fun v => -v)
  | '+' :: rest => parsePyFloatMag rest
  | cs => parsePyFloatMag cs

/-- Python `float()` on a string holding a plain decimal numeral, the format
the judge inputs use: surrounding whitespace is ignored, then an optional
sign and digits with an optional point.  `none` models a `ValueError`. -/
def parsePyFloat (cs : List Char) : Option ℚ :=
  parsePyFloatSigned (pyStrip cs)

/-- A single-qubit operator as built by `pauli_token_to_operator`:
`qml.Identity` / `qml.PauliX` / `qml.PauliY` / `qml.PauliZ` on a wire. -/
inductive PauliOp where
  | Identity : Int → PauliOp
  | PauliX : Int → PauliOp
  | PauliY : Int → PauliOp
  | PauliZ : Int → PauliOp
deriving DecidableEq, Repr

/-- Outcome of one iteration of the token loop in `pauli_token_to_operator`:
`ok p` appends the operator `p` to `qubit_terms`; `invalid` prints
`"Invalid input."` and appends nothing (the final `else` branch); `error` is
an uncaught exception (`term[0]` on an empty token, or `int()` failing on the
qubit index). -/
inductive TokenStep where
  | ok : PauliOp → TokenStep
  | invalid : TokenStep
  | error : TokenStep
deriving DecidableEq, Repr

/-- One iteration of the loop in `pauli_token_to_operator`: the special case
`term == "I"` gives `qml.Identity(0)`; otherwise the first character selects
`PauliX`/`PauliY`/`PauliZ` applied to `int(term[1:])`, and any other first
character prints `"Invalid input."` and is skipped. -/
def pauliTokenStep (term : List Char) : TokenStep :=
  if term = ['I'] then TokenStep.ok (PauliOp.Identity 0)
  else
    match term with
    | [] => TokenStep.error
    | p :: idx =>
      if p = 'X' then
        match parsePyInt idx with
        | some n => TokenStep.ok (PauliOp.PauliX n)
        | none => TokenStep.error
      else if p = 'Y' then
        match parsePyInt idx with
        | some n => TokenStep.ok (PauliOp.PauliY n)
        | none => TokenStep.error
      else if p = 'Z' then
        match parsePyInt idx with
        | some n => TokenStep.ok (PauliOp.PauliZ n)
        | none => TokenStep.error
      else TokenStep.invalid

/-- The token loop of `pauli_token_to_operator`: returns the accumulated
`qubit_terms` (`none` on an exception, which also stops the loop) and the
list of diagnostics printed before returning or raising. -/
def pauliTokensLoop : List (List Char) → Option (List PauliOp) × List String
  | [] => (some [], [])
  | t :: rest =>
    match pauliTokenStep t with
    | TokenStep.error => (none, [])
    | TokenStep.invalid =>
      let r := pauliTokensLoop rest
      (r.1, "Invalid input." :: r.2)
    | TokenStep.ok p =>
      let r := pauliTokensLoop rest
      (Option.map (fun ops => p :: ops) r.1, r.2)

/-- `pauli_token_to_operator`: runs the token loop, then combines
`qubit_terms` with `@` starting from `qubit_terms[0]` — the product is
modelled as the list of its factors; an empty `qubit_terms` raises
`IndexError` (`none`). -/
def pauli_token_to_operator (token : List (List Char)) :
    Option (List PauliOp) × List String :=
  match pauliTokensLoop token with
  | (some ops, log) => if ops = [] then (none, log) else (some ops, log)
  | (none, log) => (none, log)

/-- One iteration of the line loop in `parse_hamiltonian_input`:
`line.strip().split(" ")`, then `sign, value = tokens[0], tokens[1]`
(IndexError when fewer than two tokens), `coeff = float(value)` negated when
`sign == "-"`, and the remaining tokens go to `pauli_token_to_operator`. -/
def parseLine (line : List Char) : Option (ℚ × List PauliOp) × List String :=
  match pySplit ' ' (pyStrip line) with
  | sign :: value :: paulis =>
    match parsePyFloat value with
    | none => (none, [])
    | some v =>
      match pauli_token_to_operator paulis with
      | (some ops, log) => (some ((if sign = ['-'] then -v else v), ops), log)
      | (none, log) => (none, log)
  | _ => (none, [])

/-- The line loop of `parse_hamiltonian_input`, building the two lists
`coeffs` and `pauli_terms` in step; an exception anywhere aborts the whole
parse (the partially built lists are discarded, the printed diagnostics are
not). -/
def parseLines : List (List Char) → Option (List ℚ × List (List PauliOp)) × List String
  | [] => (some ([], []), [])
  | l :: rest =>
    match parseLine l with
    | (none, log) => (none, log)
    | (some (c, ops), log) =>
      match parseLines rest with
      | (none, log2) => (none, log ++ log2)
      | (some (cs, pss), log2) => (some (c :: cs, ops :: pss), log ++ log2)

/-- `parse_hamiltonian_input`: splits the input on the delimiter `"S"` and
parses each piece; the result is the pair of lists passed to
`qml.Hamiltonian(coeffs, pauli_terms)`, next to the printed diagnostics. -/
def parse_hamiltonian_input (input_data : String) :
    Option (List ℚ × List (List PauliOp)) × List String :=
  parseLines (pySplit 'S' input_data.data)

/-- The single-qubit state `|0>` as its (real) amplitude pair. -/
def ket0 : ℝ × ℝ := (1, 0)

/-- `qml.RY(angle)` applied to a state: the rotation matrix
`[[cos(angle/2), -sin(angle/2)], [sin(angle/2), cos(angle/2)]]`, which is
real, acting on the amplitudes. -/
noncomputable def ryApply (angle : ℝ) (v : ℝ × ℝ) : ℝ × ℝ :=
  (Real.cos (angle / 2) * v.1 - Real.sin (angle / 2) * v.2,
   Real.sin (angle / 2) * v.1 + Real.cos (angle / 2) * v.2)

/-- The `qml.PauliX` matrix `[[0, 1], [1, 0]]` acting on a state. -/
def pauliXApply (v : ℝ × ℝ) : ℝ × ℝ :=
  (v.2, v.1)

/-- Real inner product of two single-qubit states with real amplitudes. -/
def innerProd (v w : ℝ × ℝ) : ℝ :=
  v.1 * w.1 + v.2 * w.2

/-- `simple_circuits_30`: the circuit applies `qml.RY(angle)` on wire 0 of a
one-qubit `default.qubit` device starting in `|0>` and returns
`qml.expval(qml.PauliX(0))`, the expectation `<psi|X|psi>`.  All amplitudes
involved are real, so the state is modelled in `ℝ × ℝ`. -/
noncomputable def simple_circuits_30 (angle : ℝ) : ℝ :=
  innerProd (ryApply angle ket0) (pauliXApply (ryApply angle ket0))

/-- The `__main__` block of `simple_circuits_30_template.py`: reads stdin,
converts it with `float()` (an uncaught `ValueError`, modelled `none`,
terminates the process with no output), calls `simple_circuits_30` and prints
the single resulting float.  The value is `some` of the printed lines, each
line holding one float. -/
noncomputable def simple_circuits_30_main (input : String) : Option (List ℝ) :=
  match parsePyFloat input.data with
  | none => none
  | some angle => some [simple_circuits_30 (angle : ℚ)]

/-- `num_eigen = 3` in `find_excited_states`: the number of eigenenergies,
also the length of `energies = np.zeros(3)`. -/
@[reducible] def num_eigen : Nat := 3

/-- The return statement of `find_excited_states`:
`",".join([str(E) for E in energies])`. -/
def joinEnergies (strs : List String) : String :=
  String.intercalate "," strs

/-- Output formatting of `find_excited_states`: the numeric energies come out
of the stochastic VQE optimization loop (delegated to the external PennyLane
library), abstracted here as the string images `energyStr` of the three
entries of `energies`; the repository code fixes their number (`np.zeros(3)`)
and the comma-joined formatting. -/
def find_excited_states_ret (energyStr : Fin num_eigen → String) : String :=
  joinEnergies ((List.finRange num_eigen).map energyStr)

/-- The `__main__` block of `vqe_500_template.py`: parses stdin with
`parse_hamiltonian_input` (an uncaught exception, modelled `none`, terminates
the process with no output) and prints the single line returned by
`find_excited_states`. -/
def vqe_main_lines (input : String) (energyStr : Fin num_eigen → String) :
    Option (List String) :=
  match (parse_hamiltonian_input input).1 with
  | none => none
  | some _ => some [find_excited_states_ret energyStr]

/-- The operator a token contributes to `qubit_terms`, if any: `some` for the
appended operator, `none` when the token is skipped or raises. -/
def stepOp (t : List Char) : Option PauliOp :=
  match pauliTokenStep t with
  | TokenStep.ok p => some p
  | _ => none

theorem parseLines_length (ls : List (List Char)) :
    ∀ cs pss log, parseLines ls = (some (cs, pss), log) →
      cs.length = pss.length ∧ cs.length = ls.length := by
  induction ls with
  | nil =>
    intro cs pss log h
    simp only [parseLines, Prod.mk.injEq, Option.some.injEq] at h
    obtain ⟨⟨hcs, hpss⟩, -⟩ := h
    subst hcs; subst hpss; simp
  | cons l rest ih =>
    intro cs pss log h
    simp only [parseLines] at h
    rcases hpl : parseLine l with ⟨o1, log1⟩
    rw [hpl] at h
    cases o1 with
    | none => simp at h
    | some co =>
      obtain ⟨c, ops⟩ := co
      rcases hr : parseLines rest with ⟨o2, log2⟩
      rw [hr] at h
      cases o2 with
      | none => simp at h
      | some cp =>
        obtain ⟨cs2, pss2⟩ := cp
        simp only [Prod.mk.injEq, Option.some.injEq] at h
        obtain ⟨⟨hcs, hpss⟩, -⟩ := h
        obtain ⟨ih1, ih2⟩ := ih cs2 pss2 log2 hr
        subst hcs; subst hpss
        exact ⟨by simp [ih1], by simp [ih2]⟩

theorem parseLines_get (ls : List (List Char)) :
    ∀ cs pss log, parseLines ls = (some (cs, pss), log) →
      ∀ (i : Nat) (line : List Char), ls[i]? = some line →
        ∃ c ops logL, parseLine line = (some (c, ops), logL) ∧
          cs[i]? = some c ∧ pss[i]? = some ops := by
  induction ls with
  | nil =>
    intro cs pss log h i line hline
    simp at hline
  | cons l rest ih =>
    intro cs pss log h i line hline
    simp only [parseLines] at h
    rcases hpl : parseLine l with ⟨o1, log1⟩
    rw [hpl] at h
    cases o1 with
    | none => simp at h
    | some co =>
      obtain ⟨c, ops⟩ := co
      rcases hr : parseLines rest with ⟨o2, log2⟩
      rw [hr] at h
      cases o2 with
      | none => simp at h
      | some cp =>
        obtain ⟨cs2, pss2⟩ := cp
        simp only [Prod.mk.injEq, Option.some.injEq] at h
        obtain ⟨⟨hcs, hpss⟩, -⟩ := h
        subst hcs; subst hpss
        cases i with
        | zero =>
          simp at hline
          subst hline
          exact ⟨c, ops, log1, hpl, by simp, by simp⟩
        | succ j =>
          simp at hline
          obtain ⟨c2, ops2, logL, h1, h2, h3⟩ := ih cs2 pss2 log2 hr j line (by simpa using hline)
          exact ⟨c2, ops2, logL, h1, by simpa using h2, by simpa using h3⟩

theorem parseLine_inv (line : List Char) (c : ℚ) (ops : List PauliOp) (log : List String)
    (h : parseLine line = (some (c, ops), log)) :
    ∃ sign value rest v, pySplit ' ' (pyStrip line) = sign :: value :: rest ∧
      parsePyFloat value = some v ∧ c = (if sign = ['-'] then -v else v) ∧
      pauli_token_to_operator rest = (some ops, log) := by
  unfold parseLine at h
  rcases hsplit : pySplit ' ' (pyStrip line) with _ | ⟨sign, _ | ⟨value, rest⟩⟩
  · rw [hsplit] at h; simp at h
  · rw [hsplit] at h; simp at h
  · rw [hsplit] at h
    simp only [] at h
    rcases hf : parsePyFloat value with - | v
    · rw [hf] at h; simp at h
    · rw [hf] at h
      rcases hp : pauli_token_to_operator rest with ⟨o, logp⟩
      rw [hp] at h
      cases o with
      | none => simp at h
      | some ops2 =>
        simp only [Prod.mk.injEq, Option.some.injEq] at h
        obtain ⟨⟨hc, hops⟩, hlog⟩ := h
        exact ⟨sign, value, rest, v, rfl, hf, hc.symm, by rw [hp, hops, hlog]⟩

theorem parseLine_intro (line : List Char) (sign value : List Char) (rest : List (List Char))
    (v : ℚ) (ops : List PauliOp) (log : List String)
    (hsplit : pySplit ' ' (pyStrip line) = sign :: value :: rest)
    (hf : parsePyFloat value = some v)
    (hp : pauli_token_to_operator rest = (some ops, log)) :
    parseLine line = (some ((if sign = ['-'] then -v else v), ops), log) := by
  unfold parseLine
  rw [hsplit]
  simp only []
  rw [hf, hp]

theorem parseLine_float_fail (line : List Char) (sign value : List Char)
    (rest : List (List Char))
    (hsplit : pySplit ' ' (pyStrip line) = sign :: value :: rest)
    (hf : parsePyFloat value = none) :
    parseLine line = (none, []) := by
  unfold parseLine
  rw [hsplit]
  simp only []
  rw [hf]

theorem parseLines_fail (ls : List (List Char))
    (h : ∃ l ∈ ls, (parseLine l).1 = none) : (parseLines ls).1 = none := by
  induction ls with
  | nil => simp at h
  | cons l rest ih =>
    simp only [parseLines]
    rcases hpl : parseLine l with ⟨o1, log1⟩
    cases o1 with
    | none => simp
    | some co =>
      obtain ⟨c, ops⟩ := co
      rcases h with ⟨l2, hmem, hfail⟩
      rcases List.mem_cons.mp hmem with rfl | hmem2
      · rw [hpl] at hfail; simp at hfail
      · have := ih ⟨l2, hmem2, hfail⟩
        rcases hr : parseLines rest with ⟨o2, log2⟩
        rw [hr] at this
        cases o2 with
        | none => simp
        | some cp => simp at this

theorem pauliTokensLoop_no_error (ts : List (List Char))
    (h : ∀ t ∈ ts, pauliTokenStep t ≠ TokenStep.error) :
    pauliTokensLoop ts = (some (ts.filterMap stepOp),
      List.replicate (ts.countP fun t => pauliTokenStep t = TokenStep.invalid)
        "Invalid input.") := by
  induction ts with
  | nil => simp [pauliTokensLoop]
  | cons t rest ih =>
    have hrest : ∀ t2 ∈ rest, pauliTokenStep t2 ≠ TokenStep.error :=
      fun t2 hm => h t2 (List.mem_cons_of_mem t hm)
    have ht := h t (List.mem_cons_self t rest)
    simp only [pauliTokensLoop]
    cases hstep : pauliTokenStep t with
    | error => exact absurd hstep ht
    | invalid =>
      rw [ih hrest]
      simp [List.filterMap_cons, List.countP_cons, stepOp, hstep, List.replicate_succ]
    | ok p =>
      rw [ih hrest]
      simp [List.filterMap_cons, List.countP_cons, stepOp, hstep]

theorem pauli_token_to_operator_ok (ts : List (List Char))
    (h : ∀ t ∈ ts, pauliTokenStep t ≠ TokenStep.error)
    (h2 : ∃ t ∈ ts, ∃ p, pauliTokenStep t = TokenStep.ok p) :
    pauli_token_to_operator ts = (some (ts.filterMap stepOp),
      List.replicate (ts.countP fun t => pauliTokenStep t = TokenStep.invalid)
        "Invalid input.") := by
  have hloop := pauliTokensLoop_no_error ts h
  obtain ⟨t, hmem, p, hp⟩ := h2
  have hne : ts.filterMap stepOp ≠ [] := by
    intro hnil
    have : p ∈ ts.filterMap stepOp :=
      List.mem_filterMap.mpr ⟨t, hmem, by simp [stepOp, hp]⟩
    rw [hnil] at this
    simp at this
  unfold pauli_token_to_operator
  rw [hloop]
  simp [hne]

theorem parsePyInt_digits (idx : List Char) (hne : idx ≠ [])
    (hdig : idx.all Char.isDigit) : parsePyInt idx = some ((digitsToNat idx : Int)) := by
  cases idx with
  | nil => exact absurd rfl hne
  | cons c rest =>
    simp only [List.all_cons, Bool.and_eq_true] at hdig
    have hc1 : c ≠ '-' := by
      intro heq; rw [heq] at hdig; exact absurd hdig.1 (by decide)
    have hc2 : c ≠ '+' := by
      intro heq; rw [heq] at hdig; exact absurd hdig.1 (by decide)
    simp only [parsePyInt, if_neg hc1, if_neg hc2, List.all_cons, Bool.and_eq_true]
    rw [if_pos ⟨hdig.1, hdig.2⟩]

theorem pauliTokenStep_X (idx : List Char) (hne : idx ≠ [])
    (hdig : idx.all Char.isDigit) :
    pauliTokenStep ('X' :: idx) = TokenStep.ok (PauliOp.PauliX ((digitsToNat idx : Int))) := by
  have hI : ('X' :: idx : List Char) ≠ ['I'] := by simp
  simp only [pauliTokenStep, if_neg hI, parsePyInt_digits idx hne hdig]
  simp

theorem pauliTokenStep_Y (idx : List Char) (hne : idx ≠ [])
    (hdig : idx.all Char.isDigit) :
    pauliTokenStep ('Y' :: idx) = TokenStep.ok (PauliOp.PauliY ((digitsToNat idx : Int))) := by
  have hI : ('Y' :: idx : List Char) ≠ ['I'] := by simp
  have hx : ('Y' : Char) ≠ 'X' := by decide
  simp only [pauliTokenStep, if_neg hI, if_neg hx, parsePyInt_digits idx hne hdig]
  simp

theorem pauliTokenStep_Z (idx : List Char) (hne : idx ≠ [])
    (hdig : idx.all Char.isDigit) :
    pauliTokenStep ('Z' :: idx) = TokenStep.ok (PauliOp.PauliZ ((digitsToNat idx : Int))) := by
  have hI : ('Z' :: idx : List Char) ≠ ['I'] := by simp
  have hx : ('Z' : Char) ≠ 'X' := by decide
  have hy : ('Z' : Char) ≠ 'Y' := by decide
  simp only [pauliTokenStep, if_neg hI, if_neg hx, if_neg hy, parsePyInt_digits idx hne hdig]
  simp


theorem joinEnergies_three (a b c : String) :
    joinEnergies [a, b, c] = a ++ "," ++ b ++ "," ++ c := by
  simp [joinEnergies, String.intercalate, String.intercalate.go]

theorem parseLines_skip_ok (ls : List (List Char))
    (h : ∀ l ∈ ls, ∃ sign value rest v,
      pySplit ' ' (pyStrip l) = sign :: value :: rest ∧
      parsePyFloat value = some v ∧
      (∀ t ∈ rest, pauliTokenStep t ≠ TokenStep.error) ∧
      (∃ t ∈ rest, ∃ p, pauliTokenStep t = TokenStep.ok p)) :
    (parseLines ls).1.isSome ∧
    (parseLines ls).2 = List.replicate
      ((ls.map fun l => ((pySplit ' ' (pyStrip l)).drop 2).countP
        (fun t => pauliTokenStep t = TokenStep.invalid)).sum) "Invalid input." := by
  induction ls with
  | nil => simp [parseLines]
  | cons l rest2 ih =>
    obtain ⟨sign, value, rest, v, hsplit, hf, herr, hok⟩ := h l (List.mem_cons_self l rest2)
    have hop := pauli_token_to_operator_ok rest herr hok
    have hline := parseLine_intro l sign value rest v _ _ hsplit hf hop
    have hdrop : ((pySplit ' ' (pyStrip l)).drop 2) = rest := by rw [hsplit]; rfl
    obtain ⟨ih1, ih2⟩ := ih (fun l2 hm => h l2 (List.mem_cons_of_mem l hm))
    simp only [parseLines]
    rw [hline]
    rcases hr : parseLines rest2 with ⟨o2, log2⟩
    rw [hr] at ih1 ih2
    cases o2 with
    | none => simp at ih1
    | some cp =>
      obtain ⟨cs2, pss2⟩ := cp
      simp only at ih2
      constructor
      · simp
      · simp only [List.map_cons, List.sum_cons, hdrop]
        rw [ih2, ← List.replicate_add]

/-- C1: parsing the two-term Hamiltonian string `"+ 1.0 Z0 S- 1.0 X0"` with
`parse_hamiltonian_input` yields exactly two terms with coefficients
`[1.0, -1.0]` in that order, the first Pauli term being `PauliZ` on qubit 0
and the second `PauliX` on qubit 0, with nothing printed. -/
theorem claim_C1 : parse_hamiltonian_input "+ 1.0 Z0 S- 1.0 X0" =
    (some ([1, -1], [[PauliOp.PauliZ 0], [PauliOp.PauliX 0]]), []) := by
  have h : parse_hamiltonian_input "+ 1.0 Z0 S- 1.0 X0" =
      (some ([decimalValue ['1'] ['0'], -decimalValue ['1'] ['0']],
        [[PauliOp.PauliZ 0], [PauliOp.PauliX 0]]), []) := rfl
  have h1 : digitsToNat ['1'] = 1 := by decide
  have h0 : digitsToNat ['0'] = 0 := by decide
  have hv : decimalValue ['1'] ['0'] = 1 := by norm_num [decimalValue, h1, h0]
  rw [h, hv]

/-- C2 counterexample: the input `"+ 1.0 Q0"` has a term containing the
malformed Pauli token `"Q0"` (first character not `X`/`Y`/`Z`, token not
`"I"`); the token is indeed logged and skipped, but the parse then FAILS
(`qubit_terms[0]` raises `IndexError` because no valid token was left), so
the claim that the parse never fails on such terms is false. -/
theorem claim_C2_counterexample :
    pauliTokenStep ['Q', '0'] = TokenStep.invalid ∧
    parse_hamiltonian_input "+ 1.0 Q0" = (none, ["Invalid input."]) := by
  constructor
  · decide
  · decide

/-- C2 amended: for every input whose terms each hold a sign token, a
parsable magnitude token, no Pauli token that raises, and AT LEAST ONE valid
Pauli token, every malformed Pauli token is logged with one
`"Invalid input."` diagnostic and skipped, and the parse of all terms still
succeeds.  (A term whose Pauli tokens are all malformed instead raises
`IndexError`, see the counterexample.) -/
theorem claim_C2_amended (input : String)
    (h : ∀ line ∈ pySplit 'S' input.data, ∃ sign value rest v,
      pySplit ' ' (pyStrip line) = sign :: value :: rest ∧
      parsePyFloat value = some v ∧
      (∀ t ∈ rest, pauliTokenStep t ≠ TokenStep.error) ∧
      (∃ t ∈ rest, ∃ p, pauliTokenStep t = TokenStep.ok p)) :
    (parse_hamiltonian_input input).1.isSome ∧
    (parse_hamiltonian_input input).2 = List.replicate
      (((pySplit 'S' input.data).map fun l => ((pySplit ' ' (pyStrip l)).drop 2).countP
        (fun t => pauliTokenStep t = TokenStep.invalid)).sum) "Invalid input." :=
  parseLines_skip_ok (pySplit 'S' input.data) h

/-- C2 witness: the input `"+ 1.0 Z0 Q0"` holds one malformed token `"Q0"`
next to the valid `"Z0"`; the parse succeeds and prints one diagnostic. -/
theorem claim_C2_witness :
    (parse_hamiltonian_input "+ 1.0 Z0 Q0").1.isSome ∧
    (parse_hamiltonian_input "+ 1.0 Z0 Q0").2 = ["Invalid input."] := by
  have h := claim_C2_amended "+ 1.0 Z0 Q0" (by
    intro line hmem
    have hsp : pySplit 'S' "+ 1.0 Z0 Q0".data =
        [['+', ' ', '1', '.', '0', ' ', 'Z', '0', ' ', 'Q', '0']] := by decide
    rw [hsp] at hmem
    simp at hmem
    subst hmem
    refine ⟨['+'], ['1', '.', '0'], [['Z', '0'], ['Q', '0']],
      decimalValue ['1'] ['0'], by decide, rfl, by decide, ?_⟩
    exact ⟨['Z', '0'], by decide, PauliOp.PauliZ 0, by decide⟩)
  refine ⟨h.1, ?_⟩
  rw [h.2]
  decide

/-- C3: whenever `parse_hamiltonian_input` succeeds, the coefficient list and
the Pauli-term list have equal length, and the i-th entries of both were
produced together from the i-th term of the input. -/
theorem claim_C3 (input : String) (cs : List ℚ) (pss : List (List PauliOp))
    (log : List String) (h : parse_hamiltonian_input input = (some (cs, pss), log)) :
    cs.length = pss.length ∧
    ∀ (i : Nat) (line : List Char), (pySplit 'S' input.data)[i]? = some line →
      ∃ c ops logL, parseLine line = (some (c, ops), logL) ∧
        cs[i]? = some c ∧ pss[i]? = some ops :=
  ⟨(parseLines_length (pySplit 'S' input.data) cs pss log h).1,
   parseLines_get (pySplit 'S' input.data) cs pss log h⟩

/-- C3 witness: the parse of `"+ 1.0 Z0 S- 1.0 X0"` yields lists of equal
length whose first entries come from the first term. -/
theorem claim_C3_witness :
    (([decimalValue ['1'] ['0'], -decimalValue ['1'] ['0']] : List ℚ).length =
      ([[PauliOp.PauliZ 0], [PauliOp.PauliX 0]] : List (List PauliOp)).length) ∧
    (∃ c ops logL,
      parseLine ['+', ' ', '1', '.', '0', ' ', 'Z', '0', ' '] = (some (c, ops), logL) ∧
      ([decimalValue ['1'] ['0'], -decimalValue ['1'] ['0']] : List ℚ)[0]? = some c ∧
      ([[PauliOp.PauliZ 0], [PauliOp.PauliX 0]] : List (List PauliOp))[0]? = some ops) := by
  have h := claim_C3 "+ 1.0 Z0 S- 1.0 X0"
    [decimalValue ['1'] ['0'], -decimalValue ['1'] ['0']]
    [[PauliOp.PauliZ 0], [PauliOp.PauliX 0]] [] rfl
  exact ⟨h.1, h.2 0 ['+', ' ', '1', '.', '0', ' ', 'Z', '0', ' '] (by decide)⟩

/-- C4 counterexample: the token `"I0"`, of the claimed form
`<I><qubit-index>`, is NOT parsed into an identity operator: only the bare
token `"I"` is treated as identity, so `"I0"` hits the invalid branch, is
logged and skipped, and a term holding only it fails to parse. -/
theorem claim_C4_counterexample :
    pauliTokenStep ['I', '0'] = TokenStep.invalid ∧
    pauli_token_to_operator [['I', '0']] = (none, ["Invalid input."]) := by
  constructor
  · decide
  · decide

/-- C4 amended: every Pauli token of the form `<X|Y|Z><qubit-index>` with a
decimal qubit index is parsed by `pauli_token_to_operator` into the
corresponding single-qubit operator on that qubit index; the identity must
be the bare token `"I"` and is parsed as `qml.Identity(0)` regardless of any
index. -/
theorem claim_C4_amended :
    (∀ idx : List Char, idx ≠ [] → idx.all Char.isDigit →
      pauli_token_to_operator [('X' :: idx)] =
        (some [PauliOp.PauliX ((digitsToNat idx : Int))], []) ∧
      pauli_token_to_operator [('Y' :: idx)] =
        (some [PauliOp.PauliY ((digitsToNat idx : Int))], []) ∧
      pauli_token_to_operator [('Z' :: idx)] =
        (some [PauliOp.PauliZ ((digitsToNat idx : Int))], [])) ∧
    pauli_token_to_operator [['I']] = (some [PauliOp.Identity 0], []) := by
  refine ⟨fun idx hne hdig => ?_, by decide⟩
  refine ⟨?_, ?_, ?_⟩
  · simp [pauli_token_to_operator, pauliTokensLoop, pauliTokenStep_X idx hne hdig]
  · simp [pauli_token_to_operator, pauliTokensLoop, pauliTokenStep_Y idx hne hdig]
  · simp [pauli_token_to_operator, pauliTokensLoop, pauliTokenStep_Z idx hne hdig]

/-- C4 witness: the tokens `"X7"`, `"Y7"`, `"Z7"` parse to the operators on
qubit 7. -/
theorem claim_C4_witness :
    pauli_token_to_operator [['X', '7']] = (some [PauliOp.PauliX 7], []) ∧
    pauli_token_to_operator [['Y', '7']] = (some [PauliOp.PauliY 7], []) ∧
    pauli_token_to_operator [['Z', '7']] = (some [PauliOp.PauliZ 7], []) := by
  have h := claim_C4_amended.1 ['7'] (by decide) (by decide)
  have h7 : ((digitsToNat ['7'] : Int)) = 7 := by decide
  rw [h7] at h
  exact h

/-- C5: for every input on which `parse_hamiltonian_input` succeeds, the
(coefficient, Pauli term) pairs appear in the same order as the terms of the
input split on the delimiter `"S"`, and each coefficient equals the float
value of the term's magnitude token, negated exactly when the term's sign
token is `"-"`. -/
theorem claim_C5 (input : String) (cs : List ℚ) (pss : List (List PauliOp))
    (log : List String) (h : parse_hamiltonian_input input = (some (cs, pss), log)) :
    cs.length = (pySplit 'S' input.data).length ∧
    ∀ (i : Nat) (line : List Char), (pySplit 'S' input.data)[i]? = some line →
      ∃ sign value rest v ops logL,
        pySplit ' ' (pyStrip line) = sign :: value :: rest ∧
        parsePyFloat value = some v ∧
        cs[i]? = some (if sign = ['-'] then -v else v) ∧
        pss[i]? = some ops ∧
        pauli_token_to_operator rest = (some ops, logL) := by
  have hlen := parseLines_length (pySplit 'S' input.data) cs pss log h
  refine ⟨hlen.2, fun i line hline => ?_⟩
  obtain ⟨c, ops, logL, hpl, hcs, hpss⟩ :=
    parseLines_get (pySplit 'S' input.data) cs pss log h i line hline
  obtain ⟨sign, value, rest, v, hsplit, hf, hc, hp⟩ := parseLine_inv line c ops logL hpl
  exact ⟨sign, value, rest, v, ops, logL, hsplit, hf, by rw [hcs, hc], hpss, hp⟩

/-- C5 witness: in `"+ 1.0 Z0 S- 1.0 X0"` the second term (index 1) has sign
token `"-"`, so the second coefficient is the negated magnitude. -/
theorem claim_C5_witness :
    ∃ sign value rest v ops logL,
      pySplit ' ' (pyStrip ['-', ' ', '1', '.', '0', ' ', 'X', '0']) =
        sign :: value :: rest ∧
      parsePyFloat value = some v ∧
      ([decimalValue ['1'] ['0'], -decimalValue ['1'] ['0']] :
        List ℚ)[1]? = some (if sign = ['-'] then -v else v) ∧
      ([[PauliOp.PauliZ 0], [PauliOp.PauliX 0]] :
        List (List PauliOp))[1]? = some ops ∧
      pauli_token_to_operator rest = (some ops, logL) := by
  have h := claim_C5 "+ 1.0 Z0 S- 1.0 X0"
    [decimalValue ['1'] ['0'], -decimalValue ['1'] ['0']]
    [[PauliOp.PauliZ 0], [PauliOp.PauliX 0]] [] rfl
  exact h.2 1 ['-', ' ', '1', '.', '0', ' ', 'X', '0'] (by decide)

/-- C6: a magnitude token that is not a valid decimal numeral makes `float()`
raise an uncaught exception, modelled `none`: the rotation script's main
prints nothing when its whole input fails to parse, and the eigensolver
script's parse fails (so its main prints nothing) when any term's second
token fails to parse. -/
theorem claim_C6 :
    (∀ input : String, parsePyFloat input.data = none →
      simple_circuits_30_main input = none) ∧
    (∀ input : String,
      (∃ line ∈ pySplit 'S' input.data, ∃ sign value rest,
        pySplit ' ' (pyStrip line) = sign :: value :: rest ∧
        parsePyFloat value = none) →
      (parse_hamiltonian_input input).1 = none ∧
      ∀ es, vqe_main_lines input es = none) := by
  constructor
  · intro input hf
    unfold simple_circuits_30_main
    rw [hf]
  · intro input hex
    have hfail : (parse_hamiltonian_input input).1 = none := by
      apply parseLines_fail
      obtain ⟨line, hmem, sign, value, rest, hsplit, hf⟩ := hex
      exact ⟨line, hmem,
        by rw [parseLine_float_fail line sign value rest hsplit hf]⟩
    refine ⟨hfail, fun es => ?_⟩
    unfold vqe_main_lines
    rw [hfail]

/-- C6 witness: the rotation script on input `"abc"` and the eigensolver on
`"+ abc Z0"` both fail with no output. -/
theorem claim_C6_witness :
    simple_circuits_30_main "abc" = none ∧
    (parse_hamiltonian_input "+ abc Z0").1 = none ∧
    vqe_main_lines "+ abc Z0" (fun _ => "0.0") = none := by
  have h1 := claim_C6.1 "abc" (by decide)
  have h2 := claim_C6.2 "+ abc Z0"
    ⟨['+', ' ', 'a', 'b', 'c', ' ', 'Z', '0'], by decide, ['+'],
      ['a', 'b', 'c'], [['Z', '0']], by decide, by decide⟩
  exact ⟨h1, h2.1, h2.2 _⟩

/-- C8: for the rotation angle 0, `simple_circuits_30` returns exactly 0:
the `PauliX` expectation of `RY(0)|0> = |0>` is zero. -/
theorem claim_C8 : simple_circuits_30 0 = 0 := by
  simp [simple_circuits_30, innerProd, ryApply, pauliXApply, ket0]

/-- C9: on success each script prints exactly one line: the rotation script a
single float (the circuit's value on the parsed angle), and the eigensolver
script the three energy strings joined by `","`. -/
theorem claim_C9 :
    (∀ (input : String) (v : ℚ), parsePyFloat input.data = some v →
      simple_circuits_30_main input = some [simple_circuits_30 ((v : ℝ))]) ∧
    (∀ (input : String) (res : List ℚ × List (List PauliOp))
      (es : Fin num_eigen → String),
      (parse_hamiltonian_input input).1 = some res →
      vqe_main_lines input es = some [es 0 ++ "," ++ es 1 ++ "," ++ es 2]) := by
  constructor
  · intro input v hf
    unfold simple_circuits_30_main
    rw [hf]
  · intro input res es hres
    unfold vqe_main_lines
    rw [hres]
    have hfr : List.finRange num_eigen = [0, 1, 2] := by decide
    rw [show find_excited_states_ret es =
        joinEnergies ((List.finRange num_eigen).map es) from rfl, hfr]
    simp only [List.map_cons, List.map_nil]
    rw [joinEnergies_three]

/-- C9 witness: input `"0"` for the rotation script and `"+ 1.0 Z0"` with
energy strings `"0.0"` for the eigensolver. -/
theorem claim_C9_witness :
    simple_circuits_30_main "0" =
      some [simple_circuits_30 ((decimalValue ['0'] [] : ℚ) : ℝ)] ∧
    vqe_main_lines "+ 1.0 Z0" (fun _ => "0.0") =
      some ["0.0" ++ "," ++ "0.0" ++ "," ++ "0.0"] := by
  constructor
  · exact claim_C9.1 "0" (decimalValue ['0'] []) rfl
  · exact claim_C9.2 "+ 1.0 Z0"
      ([decimalValue ['1'] ['0']], [[PauliOp.PauliZ 0]]) (fun _ => "0.0") rfl

/-- C10: a term's coefficient is negated only when its sign token is exactly
`"-"`; any other sign token is silently accepted, the coefficient stays the
un-negated float value, and no error is raised. -/
theorem claim_C10 (line sign value : List Char) (rest : List (List Char)) (v : ℚ)
    (ops : List PauliOp) (log : List String)
    (hsplit : pySplit ' ' (pyStrip line) = sign :: value :: rest)
    (hsign : sign ≠ ['-'])
    (hf : parsePyFloat value = some v)
    (hp : pauli_token_to_operator rest = (some ops, log)) :
    parseLine line = (some (v, ops), log) := by
  have h := parseLine_intro line sign value rest v ops log hsplit hf hp
  rw [if_neg hsign] at h
  exact h

/-- C10 witness: the sign token `"*"` is accepted silently and the
coefficient of `"* 2.0 Z0"` stays positive. -/
theorem claim_C10_witness :
    parseLine ['*', ' ', '2', '.', '0', ' ', 'Z', '0'] =
      (some (decimalValue ['2'] ['0'], [PauliOp.PauliZ 0]), []) :=
  claim_C10 ['*', ' ', '2', '.', '0', ' ', 'Z', '0'] ['*'] ['2', '.', '0']
    [['Z', '0']] (decimalValue ['2'] ['0']) [PauliOp.PauliZ 0] []
    (by decide) (by decide) rfl (by decide)
